import Mathlib

/-
  Verification of the gpsgridder numerical core
  (src/potential/gpsgridder.c).

  The floating-point program is shallowly embedded over the rationals:
  every C double becomes a value of type ℚ and the exact field operations
  stand in for the floating-point ones, so algebraic identities are proved
  exactly.  The C library logarithm has no rational counterpart; it is
  carried as an abstract function parameter rlog : ℚ → ℚ, so every theorem
  about the Green's functions holds for the real log in particular.
  GMT library primitives that live outside this repository
  (gmt_distance, doubleAlmostEqualZero, the linear solvers, qsort) are
  either abstract parameters or modelled from the specification, as noted
  at each definition.
-/

namespace Gpsgridder

-- Mode bitflags for the normalization (enum Gpsgridded_enum).

def GPS_TREND : ℕ := 1

def GPS_NORM : ℕ := 2

/-- An input record: x, y coordinates, u, v observations and the two
weight columns (X row columns GMT_WU, GMT_WV; 1 when -W is not used). -/
structure Obs where
  x : ℚ
  y : ℚ
  u : ℚ
  v : ℚ
  wu : ℚ
  wv : ℚ
deriving DecidableEq, Repr

-- GREEN'S FUNCTION EVALUATOR (evaluate_greensfunctions, lines 426-442)

/-- The squared radius dr2 = dx*dx + dy*dy + par[1] computed at the top of
evaluate_greensfunctions; par[1] is the fudge term delta_r. -/
def greens_dr2 (dx dy fudge : ℚ) : ℚ := dx * dx + dy * dy + fudge

/-- Shallow embedding of evaluate_greensfunctions.  par.1 is par[0]
(the epsilon term), par.2 is par[1] (the fudge added to the squared
radius).  The result triple is (G[0], G[1], G[2]) = (G_xx, G_yy, G_xy).
rlog abstracts the C library log. -/
def evaluate_greensfunctions (rlog : ℚ → ℚ) (dx dy : ℚ) (par : ℚ × ℚ) : ℚ × ℚ × ℚ :=
  let dr2 := greens_dr2 dx dy par.2
  let c1 := (3 - par.1) / 2
  let c2 := 1 + par.1
  let g0 := c1 * rlog dr2
  let idr2 := 1 / dr2
  (g0 + c2 * (dx * dx) * idr2, g0 + c2 * (dy * dy) * idr2, c2 * dx * dy * idr2)

-- NORMALIZATION / DETRENDING (do_gps_normalization, lines 304-387, and
-- undo_gps_normalization, lines 389-402).  The C function mutates the u,v
-- arrays and fills the coeff array; here the pieces of that computation
-- are named definitions over the observation list, and the mutated arrays
-- become a mapped list.

/-- The exact value of the C constant DBL_MAX, the initializer of the
running minimum (and, negated, of the running maximum) of the residuals. -/
def gps_DBL_MAX : ℚ := (2 ^ 53 - 1) * 2 ^ 971

/-- Test of bit GPS_TREND of the normalization mode (mode & GPS_TREND). -/
def gps_trend_on (mode : ℕ) : Prop := mode &&& GPS_TREND ≠ 0

/-- Test of bit GPS_NORM of the normalization mode (mode & GPS_NORM). -/
def gps_norm_on (mode : ℕ) : Prop := mode &&& GPS_NORM ≠ 0

instance (mode : ℕ) : Decidable (gps_trend_on mode) := by
  unfold gps_trend_on; infer_instance

instance (mode : ℕ) : Decidable (gps_norm_on mode) := by
  unfold gps_norm_on; infer_instance

/-- coeff[GSP_MEAN_U]: the mean u observation. -/
def mean_u (obs : List Obs) : ℚ := (obs.map Obs.u).sum / obs.length

/-- coeff[GSP_MEAN_V]: the mean v observation. -/
def mean_v (obs : List Obs) : ℚ := (obs.map Obs.v).sum / obs.length

/-- coeff[GSP_MEAN_X]: the mean x coordinate, accumulated and divided only
when the trend bit is set (otherwise it stays at its memset value 0). -/
def mean_x (obs : List Obs) (mode : ℕ) : ℚ :=
  if gps_trend_on mode then (obs.map Obs.x).sum / obs.length else 0

/-- coeff[GSP_MEAN_Y]: the mean y coordinate (0 unless the trend bit is set). -/
def mean_y (obs : List Obs) (mode : ℕ) : ℚ :=
  if gps_trend_on mode then (obs.map Obs.y).sum / obs.length else 0

/-- Sum sxx of the LS-plane normal equations (deviations from the means). -/
def s_xx (obs : List Obs) (mode : ℕ) : ℚ :=
  (obs.map (fun o => (o.x - mean_x obs mode) * (o.x - mean_x obs mode))).sum

/-- Sum sxy of the LS-plane normal equations. -/
def s_xy (obs : List Obs) (mode : ℕ) : ℚ :=
  (obs.map (fun o => (o.x - mean_x obs mode) * (o.y - mean_y obs mode))).sum

/-- Sum sxu of the LS-plane normal equations. -/
def s_xu (obs : List Obs) (mode : ℕ) : ℚ :=
  (obs.map (fun o => (o.x - mean_x obs mode) * (o.u - mean_u obs))).sum

/-- Sum sxv of the LS-plane normal equations. -/
def s_xv (obs : List Obs) (mode : ℕ) : ℚ :=
  (obs.map (fun o => (o.x - mean_x obs mode) * (o.v - mean_v obs))).sum

/-- Sum syy of the LS-plane normal equations. -/
def s_yy (obs : List Obs) (mode : ℕ) : ℚ :=
  (obs.map (fun o => (o.y - mean_y obs mode) * (o.y - mean_y obs mode))).sum

/-- Sum syu of the LS-plane normal equations. -/
def s_yu (obs : List Obs) (mode : ℕ) : ℚ :=
  (obs.map (fun o => (o.y - mean_y obs mode) * (o.u - mean_u obs))).sum

/-- Sum syv of the LS-plane normal equations. -/
def s_yv (obs : List Obs) (mode : ℕ) : ℚ :=
  (obs.map (fun o => (o.y - mean_y obs mode) * (o.v - mean_v obs))).sum

/-- The determinant d = sxx*syy - sxy*sxy of the 2x2 normal-equations
matrix (line 345). -/
def det_d (obs : List Obs) (mode : ℕ) : ℚ :=
  s_xx obs mode * s_yy obs mode - s_xy obs mode * s_xy obs mode

/-- coeff[GSP_SLP_UX]: x-slope of u; stays 0 when the trend bit is off or
when the determinant is exactly zero (lines 346-351). -/
def slp_ux (obs : List Obs) (mode : ℕ) : ℚ :=
  if gps_trend_on mode ∧ det_d obs mode ≠ 0 then
    (s_xu obs mode * s_yy obs mode - s_xy obs mode * s_yu obs mode) / det_d obs mode
  else 0

/-- coeff[GSP_SLP_UY]. -/
def slp_uy (obs : List Obs) (mode : ℕ) : ℚ :=
  if gps_trend_on mode ∧ det_d obs mode ≠ 0 then
    (s_xx obs mode * s_yu obs mode - s_xy obs mode * s_xu obs mode) / det_d obs mode
  else 0

/-- coeff[GSP_SLP_VX]. -/
def slp_vx (obs : List Obs) (mode : ℕ) : ℚ :=
  if gps_trend_on mode ∧ det_d obs mode ≠ 0 then
    (s_xv obs mode * s_yy obs mode - s_xy obs mode * s_yv obs mode) / det_d obs mode
  else 0

/-- coeff[GSP_SLP_VY]. -/
def slp_vy (obs : List Obs) (mode : ℕ) : ℚ :=
  if gps_trend_on mode ∧ det_d obs mode ≠ 0 then
    (s_xx obs mode * s_yv obs mode - s_xy obs mode * s_xv obs mode) / det_d obs mode
  else 0

/-- The u residual after the remove-mean / remove-plane loop
(lines 356-362): u[i] - mean u minus, when the trend bit is set, the
fitted plane at (x_i, y_i). -/
def res_u1 (obs : List Obs) (mode : ℕ) (o : Obs) : ℚ :=
  o.u - mean_u obs -
    (if gps_trend_on mode then
      slp_ux obs mode * (o.x - mean_x obs mode) + slp_uy obs mode * (o.y - mean_y obs mode)
    else 0)

/-- The v residual after the remove-mean / remove-plane loop. -/
def res_v1 (obs : List Obs) (mode : ℕ) (o : Obs) : ℚ :=
  o.v - mean_v obs -
    (if gps_trend_on mode then
      slp_vx obs mode * (o.x - mean_x obs mode) + slp_vy obs mode * (o.y - mean_y obs mode)
    else 0)

/-- umin: running minimum of the u residuals, initialized to DBL_MAX. -/
def u_min (obs : List Obs) (mode : ℕ) : ℚ :=
  (obs.map (res_u1 obs mode)).foldl min gps_DBL_MAX

/-- umax: running maximum of the u residuals, initialized to -DBL_MAX. -/
def u_max (obs : List Obs) (mode : ℕ) : ℚ :=
  (obs.map (res_u1 obs mode)).foldl max (-gps_DBL_MAX)

/-- vmin for the v residuals. -/
def v_min (obs : List Obs) (mode : ℕ) : ℚ :=
  (obs.map (res_v1 obs mode)).foldl min gps_DBL_MAX

/-- vmax for the v residuals. -/
def v_max (obs : List Obs) (mode : ℕ) : ℚ :=
  (obs.map (res_v1 obs mode)).foldl max (-gps_DBL_MAX)

/-- coeff[GSP_RANGE_U] = MAX(|umin|, |umax|), set only in the GPS_NORM
branch (line 371); it keeps its memset value 0 otherwise. -/
def range_u (obs : List Obs) (mode : ℕ) : ℚ :=
  if gps_norm_on mode then max |u_min obs mode| |u_max obs mode| else 0

/-- coeff[GSP_RANGE_V] = MAX(|vmin|, |vmax|) (0 unless GPS_NORM is set). -/
def range_v (obs : List Obs) (mode : ℕ) : ℚ :=
  if gps_norm_on mode then max |v_min obs mode| |v_max obs mode| else 0

/-- du = (range == 0) ? 1 : 1/range (line 373). -/
def du_scale (obs : List Obs) (mode : ℕ) : ℚ :=
  if range_u obs mode = 0 then 1 else 1 / range_u obs mode

/-- dv = (range == 0) ? 1 : 1/range (line 374). -/
def dv_scale (obs : List Obs) (mode : ℕ) : ℚ :=
  if range_v obs mode = 0 then 1 else 1 / range_v obs mode

/-- The final stored u value: the residual, scaled by du when the
GPS_NORM bit is set (lines 375-378). -/
def res_u2 (obs : List Obs) (mode : ℕ) (o : Obs) : ℚ :=
  if gps_norm_on mode then res_u1 obs mode o * du_scale obs mode else res_u1 obs mode o

/-- The final stored v value. -/
def res_v2 (obs : List Obs) (mode : ℕ) (o : Obs) : ℚ :=
  if gps_norm_on mode then res_v1 obs mode o * dv_scale obs mode else res_v1 obs mode o

/-- The coeff array of do_gps_normalization (indices GSP_MEAN_X through
GSP_RANGE_V). -/
structure GpsCoeff where
  cmean_x : ℚ
  cmean_y : ℚ
  cmean_u : ℚ
  cmean_v : ℚ
  cslp_ux : ℚ
  cslp_uy : ℚ
  cslp_vx : ℚ
  cslp_vy : ℚ
  crange_u : ℚ
  crange_v : ℚ
deriving DecidableEq, Repr

/-- The coeff array produced by do_gps_normalization. -/
def gps_coeff (obs : List Obs) (mode : ℕ) : GpsCoeff :=
  ⟨mean_x obs mode, mean_y obs mode, mean_u obs, mean_v obs,
   slp_ux obs mode, slp_uy obs mode, slp_vx obs mode, slp_vy obs mode,
   range_u obs mode, range_v obs mode⟩

/-- do_gps_normalization: returns the coeff array and the observation list
with u,v replaced by the normalized residuals (the in-place mutation of
the C u,v arrays). -/
def do_gps_normalization (obs : List Obs) (mode : ℕ) : GpsCoeff × List Obs :=
  (gps_coeff obs mode,
   obs.map (fun o => Obs.mk o.x o.y (res_u2 obs mode o) (res_v2 obs mode o) o.wu o.wv))

/-- undo_gps_normalization (lines 389-402): scale back by the stored range
(GPS_NORM), add the mean, then add the fitted plane at the point's own
x,y (GPS_TREND), in exactly this order. -/
def undo_gps_normalization (p : Obs) (mode : ℕ) (cf : GpsCoeff) : Obs :=
  let u0 := if gps_norm_on mode then p.u * cf.crange_u else p.u
  let v0 := if gps_norm_on mode then p.v * cf.crange_v else p.v
  let u1 := u0 + cf.cmean_u
  let v1 := v0 + cf.cmean_v
  let u2 := if gps_trend_on mode then
      u1 + (cf.cslp_ux * (p.x - cf.cmean_x) + cf.cslp_uy * (p.y - cf.cmean_y))
    else u1
  let v2 := if gps_trend_on mode then
      v1 + (cf.cslp_vx * (p.x - cf.cmean_x) + cf.cslp_vy * (p.y - cf.cmean_y))
    else v1
  Obs.mk p.x p.y u2 v2 p.wu p.wv

-- DUPLICATE RESOLVER (input reading loop, lines 551-593) and the
-- conflicting-duplicate gate (lines 612-624).

/-- Modelled from the spec: the GMT library limit GMT_CONV8_LIMIT used by
the gmt_M_is_zero macro; the macro and the limit live in the GMT headers,
outside src/.  The spec speaks of a zero test within floating-point
tolerance; the limit is the small positive constant 1e-8. -/
def GMT_CONV8_LIMIT : ℚ := 1 / 10 ^ 8

/-- Modelled from the spec: the GMT library macro gmt_M_is_zero (not under
src/), a tolerance comparison |x| < GMT_CONV8_LIMIT. -/
def gmt_M_is_zero (x : ℚ) : Bool := |x| < GMT_CONV8_LIMIT

/-- The conflicting-duplicate gate (lines 612-624): with n_duplicates > 0
the run aborts (returns GMT_DATA_READ_ERROR before the linear system is
assembled) exactly when -C is not active or the -C cutoff value is zero
within tolerance; otherwise it proceeds. -/
def duplicate_gate_aborts (n_duplicates : ℕ) (Cactive : Bool) (Cvalue : ℚ) : Bool :=
  n_duplicates != 0 && (!Cactive || gmt_M_is_zero Cvalue)

/-- The scan of a new record q against the already retained observations
(loop at lines 555-572).  dist abstracts gmt_distance (geographic or
Cartesian), aeq abstracts doubleAlmostEqualZero; both are GMT library
primitives outside src/.  Returns (skip, number of n_duplicates
increments, updated r_min, updated r_max); the loop stops at the first
coincident record whose u,v both match. -/
def scan_dup (dist : Obs → Obs → ℚ) (aeq : ℚ → ℚ → Bool) (q : Obs)
    (rmin rmax : ℚ) : List Obs → Bool × ℕ × ℚ × ℚ
  | [] => (false, 0, rmin, rmax)
  | o :: rest =>
    let r := dist o q
    if gmt_M_is_zero r then
      if aeq q.u o.u && aeq q.v o.v then (true, 0, rmin, rmax)
      else
        let res := scan_dup dist aeq q rmin rmax rest
        (res.1, res.2.1 + 1, res.2.2)
    else
      scan_dup dist aeq q (min rmin r) (max rmax r) rest

/-- The reading-loop state: retained observations and the counters. -/
structure ReadState where
  retained : List Obs
  n_skip : ℕ
  n_dup : ℕ
  rmin : ℚ
  rmax : ℚ
deriving DecidableEq, Repr

/-- One iteration of the reading loop for a data record q (lines 551-592):
scan against the retained records; a skipped record leaves the retained
list unchanged and bumps n_skip, otherwise the record is appended.  The
n_duplicates increments collected during the scan persist either way. -/
def ingest_record (dist : Obs → Obs → ℚ) (aeq : ℚ → ℚ → Bool)
    (st : ReadState) (q : Obs) : ReadState :=
  let res := scan_dup dist aeq q st.rmin st.rmax st.retained
  if res.1 then
    ReadState.mk st.retained (st.n_skip + 1) (st.n_dup + res.2.1) res.2.2.1 res.2.2.2
  else
    ReadState.mk (st.retained ++ [q]) st.n_skip (st.n_dup + res.2.1) res.2.2.1 res.2.2.2

/-- The whole reading loop over an input sequence. -/
def read_records (dist : Obs → Obs → ℚ) (aeq : ℚ → ℚ → Bool)
    (st : ReadState) (input : List Obs) : ReadState :=
  input.foldl (ingest_record dist aeq) st

-- LINEAR SYSTEM BUILDER (GMT_gpsgridder, lines 694-721)

/-- get_gps_dxdy (lines 412-424): increments dx,dy between point 1 and 0
as measured from point 1.  The geographic branch is parametrized by the
GMT library primitives outside src/: deltaLonF models the
gmt_M_set_delta_lon wrap macro, cosdF the cosd function, distKm the
DIST_KM_PR_DEG constant. -/
def get_gps_dxdy (geo : Bool) (deltaLonF : ℚ → ℚ → ℚ) (cosdF : ℚ → ℚ)
    (distKm : ℚ) (X0 X1 : Obs) : ℚ × ℚ :=
  if geo then
    let dlon := deltaLonF X0.x X1.x
    (dlon * cosdF ((X1.y + X0.y) / 2) * distKm, (X1.y - X0.y) * distKm)
  else
    (X1.x - X0.x, X1.y - X0.y)

/-- The inputs of the system assembly loop: the n retained observations
(X row k, with the weight columns), the normalized u and v residual
arrays, the -W flag, the distance-model parameters and the Green's
function parameters par[0], par[1]. -/
structure AsmCtx where
  n : ℕ
  X : ℕ → Obs
  uArr : ℕ → ℚ
  vArr : ℕ → ℚ
  Wactive : Bool
  geo : Bool
  deltaLonF : ℚ → ℚ → ℚ
  cosdF : ℚ → ℚ
  distKm : ℚ
  rlog : ℚ → ℚ
  par : ℚ × ℚ

/-- n2 = 2*n, the dimension of the linear system. -/
def AsmCtx.n2 (c : AsmCtx) : ℕ := 2 * c.n

/-- weight_ju = X[j][GMT_WU] under -W, else 1 (line 694 and 697). -/
def AsmCtx.weight_ju (c : AsmCtx) (j : ℕ) : ℚ :=
  if c.Wactive then (c.X j).wu else 1

/-- weight_jv = X[j][GMT_WV] under -W, else 1. -/
def AsmCtx.weight_jv (c : AsmCtx) (j : ℕ) : ℚ :=
  if c.Wactive then (c.X j).wv else 1

/-- weight_u = weight_ju * X[i][GMT_WU] under -W, else 1 (line 704). -/
def AsmCtx.weight_u (c : AsmCtx) (j i : ℕ) : ℚ :=
  if c.Wactive then (c.X j).wu * (c.X i).wu else 1

/-- weight_v = weight_jv * X[i][GMT_WV] under -W, else 1 (line 705). -/
def AsmCtx.weight_v (c : AsmCtx) (j i : ℕ) : ℚ :=
  if c.Wactive then (c.X j).wv * (c.X i).wv else 1

/-- The offset (dx,dy) from observation i to observation j
(get_gps_dxdy (GMT, X[i], X[j], ...) at line 711). -/
def AsmCtx.offs (c : AsmCtx) (i j : ℕ) : ℚ × ℚ :=
  get_gps_dxdy c.geo c.deltaLonF c.cosdF c.distKm (c.X i) (c.X j)

/-- The Green's function triple for the pair (source i, evaluation j)
(line 712). -/
def AsmCtx.G (c : AsmCtx) (i j : ℕ) : ℚ × ℚ × ℚ :=
  evaluate_greensfunctions c.rlog (c.offs i j).1 (c.offs i j).2 c.par

/-- The four flat-array stores of one inner-loop iteration (lines
707-716): A[Gu_ij], A[Gv_ij], A[Guv_ij], A[Gvu_ij] with
Gu_ij = j*n2+i, Guv_ij = Gu_ij+n, Gvu_ij = (j+n)*n2+i, Gv_ij = Gvu_ij+n. -/
def AsmCtx.cellWrites (c : AsmCtx) (j i : ℕ) : List (ℕ × ℚ) :=
  [(j * c.n2 + i, c.weight_u j i * (c.G i j).1),
   ((j + c.n) * c.n2 + (i + c.n), c.weight_v j i * (c.G i j).2.1),
   (j * c.n2 + (i + c.n), c.weight_u j i * (c.G i j).2.2),
   ((j + c.n) * c.n2 + i, c.weight_v j i * (c.G i j).2.2)]

/-- All stores of the double assembly loop (j outer over rows, i inner
over columns). -/
def AsmCtx.writes (c : AsmCtx) : List (ℕ × ℚ) :=
  (List.range c.n).flatMap (fun j => (List.range c.n).flatMap (fun i => c.cellWrites j i))

/-- Apply a list of array stores, in order, to an initial array. -/
def applyWrites (ws : List (ℕ × ℚ)) (A0 : ℕ → ℚ) : ℕ → ℚ :=
  ws.foldl (fun A pr => Function.update A pr.1 pr.2) A0

/-- The assembled flat matrix A (allocated zero-initialized at line 690,
then filled by the double loop). -/
def AsmCtx.Amat (c : AsmCtx) : ℕ → ℚ := applyWrites c.writes (fun _ => 0)

/-- The right-hand side: the u residuals, scaled by weight_ju under -W
(line 699), with the scaled v residuals appended at the end (memcpy at
line 720, obs = u). -/
def AsmCtx.rhs (c : AsmCtx) : List ℚ :=
  (List.range c.n).map (fun j => c.weight_ju j * c.uArr j) ++
    (List.range c.n).map (fun j => c.weight_jv j * c.vArr j)

/-- The right-hand side as a flat-indexed array. -/
def AsmCtx.rhsF (c : AsmCtx) (k : ℕ) : ℚ := c.rhs.getD k 0

/-- Modelled from the spec: row r of the matrix-vector product A x, the
contract of the external solve primitives gmt_gaussjordan and
gmt_solve_svd (GMT library, outside src/), which return x with A x = b. -/
def rowMul (nn : ℕ) (A x : ℕ → ℚ) (r : ℕ) : ℚ :=
  ∑ i in Finset.range nn, A (r * nn + i) * x i

/-- Modelled from the spec: x solves the nn-by-nn system A x = b. -/
def solves (nn : ℕ) (A b x : ℕ → ℚ) : Prop :=
  ∀ r < nn, rowMul nn A x r = b r

/-- The same assembly inputs with -W active and both weight columns of
every observation set to the uniform value w. -/
def withUniformWeight (c : AsmCtx) (w : ℚ) : AsmCtx :=
  AsmCtx.mk c.n
    (fun k => Obs.mk (c.X k).x (c.X k).y (c.X k).u (c.X k).v w w)
    c.uArr c.vArr true c.geo c.deltaLonF c.cosdF c.distKm c.rlog c.par

/-- A concrete assembly context used by the witnesses: one observation at
(1,2) with weights (3,4), residuals u = 5, v = 7, -W active, Cartesian
offsets, rlog the constant function 9, par = (0, 1). -/
def ctxW : AsmCtx :=
  AsmCtx.mk 1 (fun _ => Obs.mk 1 2 0 0 3 4) (fun _ => 5) (fun _ => 7) true false
    (fun a b => b - a) (fun _ => 1) 1 (fun _ => 9) (0, 1)

-- EIGENVALUE DIAGNOSTIC FILE (-C with /<file>, lines 740-766)

/-- Modelled from the spec: gmt_sort_array on GMT_DOUBLE (GMT library,
outside src/) sorts the copied singular-value array into ascending order
(source comment at line 751); modelled as insertion sort by ≤. -/
def gps_sorted (s : List ℚ) : List ℚ := List.insertionSort (· ≤ ·) s

/-- eig_max = eig[n-1] (line 753): the entry at index n-1 of the
ascending-sorted length-2n array — the n-th smallest value, not the
maximum. -/
def gps_eig_max (s : List ℚ) (n : ℕ) : ℚ := (gps_sorted s).getD (n - 1) 0

/-- Row i of the eigenvalue diagnostic output (lines 754-757): x-value
i+1, y-value eig[j] with j = n2-1-i in -Cv mode (cmode = 1), otherwise
eig[j] / eig_max. -/
def gps_eig_report (cmode : ℕ) (s : List ℚ) (n i : ℕ) : ℚ × ℚ :=
  ((i : ℚ) + 1,
   if cmode = 1 then (gps_sorted s).getD (2 * n - 1 - i) 0
   else (gps_sorted s).getD (2 * n - 1 - i) 0 / gps_eig_max s n)

-- Theorems

/-- Claim C3: for every offset (dx,dy) and shape parameters (eps_term e,
fudge f), with r2 = dx^2 + dy^2 + f, c1 = (3 - e)/2 and c2 = 1 + e, the
evaluator returns exactly G_xx = c1*log r2 + c2*dx^2/r2,
G_yy = c1*log r2 + c2*dy^2/r2 and G_xy = c2*dx*dy/r2 (for any model rlog
of the library logarithm). -/
theorem claim_C3_greens_values (rlog : ℚ → ℚ) (dx dy e f : ℚ) :
    evaluate_greensfunctions rlog dx dy (e, f) =
      (((3 - e) / 2) * rlog (dx ^ 2 + dy ^ 2 + f) + (1 + e) * dx ^ 2 / (dx ^ 2 + dy ^ 2 + f),
       ((3 - e) / 2) * rlog (dx ^ 2 + dy ^ 2 + f) + (1 + e) * dy ^ 2 / (dx ^ 2 + dy ^ 2 + f),
       (1 + e) * dx * dy / (dx ^ 2 + dy ^ 2 + f)) := by
  have harg : dx * dx + dy * dy + f = dx ^ 2 + dy ^ 2 + f := by ring
  simp only [evaluate_greensfunctions, greens_dr2, harg]
  refine Prod.ext ?_ (Prod.ext ?_ ?_) <;> simp <;> ring

/-- Claim C7: the Green's function triple is unchanged when the offset
(dx,dy) is negated (source/evaluation points swapped). -/
theorem claim_C7_greens_symmetry (rlog : ℚ → ℚ) (dx dy : ℚ) (par : ℚ × ℚ) :
    evaluate_greensfunctions rlog (-dx) (-dy) par =
      evaluate_greensfunctions rlog dx dy par := by
  simp [evaluate_greensfunctions, greens_dr2, neg_mul_neg]

/-- Claim C8: for dx = dy = 0 and fudge > 0, the squared radius used by the
evaluator equals the fudge term, is positive and nonzero — so the
logarithm is taken of a positive argument and no division by zero occurs —
and the evaluator returns the well-defined triple
(c1*log f, c1*log f, 0) for any model rlog of the logarithm. -/
theorem claim_C8_singularity_guard (e f : ℚ) (hf : 0 < f) :
    greens_dr2 0 0 f = f ∧ 0 < greens_dr2 0 0 f ∧ greens_dr2 0 0 f ≠ 0 ∧
      ∀ rlog : ℚ → ℚ, evaluate_greensfunctions rlog 0 0 (e, f) =
        (((3 - e) / 2) * rlog f, ((3 - e) / 2) * rlog f, 0) := by
  have h2 : greens_dr2 0 0 f = f := by simp [greens_dr2]
  refine ⟨h2, by simpa [h2] using hf, by simp [h2]; exact ne_of_gt hf, ?_⟩
  intro rlog
  simp [evaluate_greensfunctions, greens_dr2]

/-- Witness for claim C8 at the concrete input e = 0, f = 1. -/
theorem claim_C8_witness :
    0 < (1 : ℚ) ∧
      (greens_dr2 0 0 1 = 1 ∧ 0 < greens_dr2 0 0 1 ∧ greens_dr2 0 0 1 ≠ 0 ∧
        ∀ rlog : ℚ → ℚ, evaluate_greensfunctions rlog 0 0 (0, 1) =
          (((3 - 0) / 2) * rlog 1, ((3 - 0) / 2) * rlog 1, 0)) :=
  ⟨by norm_num, claim_C8_singularity_guard 0 1 (by norm_num)⟩

-- Bounds on the running minimum / maximum of the residual loop.

theorem foldl_min_le_init (l : List ℚ) (a : ℚ) : l.foldl min a ≤ a := by
  induction l generalizing a with
  | nil => exact le_refl a
  | cons b t ih => exact le_trans (ih (min a b)) (min_le_left a b)

theorem foldl_min_le_mem {l : List ℚ} {x : ℚ} (hx : x ∈ l) (a : ℚ) :
    l.foldl min a ≤ x := by
  induction l generalizing a with
  | nil => cases hx
  | cons b t ih =>
    rcases List.mem_cons.mp hx with h | h
    · subst h
      exact le_trans (foldl_min_le_init t (min a x)) (min_le_right a x)
    · exact ih h (min a b)

theorem init_le_foldl_max (l : List ℚ) (a : ℚ) : a ≤ l.foldl max a := by
  induction l generalizing a with
  | nil => exact le_refl a
  | cons b t ih => exact le_trans (le_max_left a b) (ih (max a b))

theorem mem_le_foldl_max {l : List ℚ} {x : ℚ} (hx : x ∈ l) (a : ℚ) :
    x ≤ l.foldl max a := by
  induction l generalizing a with
  | nil => cases hx
  | cons b t ih =>
    rcases List.mem_cons.mp hx with h | h
    · subst h
      exact le_trans (le_max_right a x) (init_le_foldl_max t (max a x))
    · exact ih h (max a b)

/-- When GPS_NORM is requested and the u range MAX(|umin|,|umax|) is zero,
every u residual is itself zero. -/
theorem res_u1_eq_zero_of_range_zero (obs : List Obs) (mode : ℕ)
    (hn : gps_norm_on mode) (hr : range_u obs mode = 0) {o : Obs} (ho : o ∈ obs) :
    res_u1 obs mode o = 0 := by
  rw [range_u, if_pos hn] at hr
  have hmin : u_min obs mode = 0 :=
    abs_eq_zero.mp (le_antisymm (hr ▸ le_max_left _ _) (abs_nonneg _))
  have hmax : u_max obs mode = 0 :=
    abs_eq_zero.mp (le_antisymm (hr ▸ le_max_right _ _) (abs_nonneg _))
  have hlo : u_min obs mode ≤ res_u1 obs mode o := by
    unfold u_min
    exact foldl_min_le_mem (List.mem_map_of_mem _ ho) _
  have hhi : res_u1 obs mode o ≤ u_max obs mode := by
    unfold u_max
    exact mem_le_foldl_max (List.mem_map_of_mem _ ho) _
  linarith

/-- v analogue of the previous lemma. -/
theorem res_v1_eq_zero_of_range_zero (obs : List Obs) (mode : ℕ)
    (hn : gps_norm_on mode) (hr : range_v obs mode = 0) {o : Obs} (ho : o ∈ obs) :
    res_v1 obs mode o = 0 := by
  rw [range_v, if_pos hn] at hr
  have hmin : v_min obs mode = 0 :=
    abs_eq_zero.mp (le_antisymm (hr ▸ le_max_left _ _) (abs_nonneg _))
  have hmax : v_max obs mode = 0 :=
    abs_eq_zero.mp (le_antisymm (hr ▸ le_max_right _ _) (abs_nonneg _))
  have hlo : v_min obs mode ≤ res_v1 obs mode o := by
    unfold v_min
    exact foldl_min_le_mem (List.mem_map_of_mem _ ho) _
  have hhi : res_v1 obs mode o ≤ v_max obs mode := by
    unfold v_max
    exact mem_le_foldl_max (List.mem_map_of_mem _ ho) _
  linarith

/-- Undoing the range scaling: multiplying the stored value by the stored
range recovers the detrended residual, also in the degenerate zero-range
case. -/
theorem res_u2_mul_range (obs : List Obs) (mode : ℕ) {o : Obs} (ho : o ∈ obs)
    (hn : gps_norm_on mode) :
    res_u2 obs mode o * range_u obs mode = res_u1 obs mode o := by
  rcases eq_or_ne (range_u obs mode) 0 with hr | hr
  · rw [hr, mul_zero]
    exact (res_u1_eq_zero_of_range_zero obs mode hn hr ho).symm
  · rw [res_u2, if_pos hn, du_scale, if_neg hr]
    field_simp

/-- v analogue of the previous lemma. -/
theorem res_v2_mul_range (obs : List Obs) (mode : ℕ) {o : Obs} (ho : o ∈ obs)
    (hn : gps_norm_on mode) :
    res_v2 obs mode o * range_v obs mode = res_v1 obs mode o := by
  rcases eq_or_ne (range_v obs mode) 0 with hr | hr
  · rw [hr, mul_zero]
    exact (res_v1_eq_zero_of_range_zero obs mode hn hr ho).symm
  · rw [res_v2, if_pos hn, dv_scale, if_neg hr]
    field_simp

/-- Per-record round trip: undoing the normalization on a forward-normalized
record (with the coeff array of the same run) gives back the record. -/
theorem undo_gps_mem (obs : List Obs) (mode : ℕ) {o : Obs} (ho : o ∈ obs) :
    undo_gps_normalization
      (Obs.mk o.x o.y (res_u2 obs mode o) (res_v2 obs mode o) o.wu o.wv) mode
      (gps_coeff obs mode) = o := by
  have hu : (if gps_norm_on mode then res_u2 obs mode o * range_u obs mode
      else res_u2 obs mode o) = res_u1 obs mode o := by
    by_cases hn : gps_norm_on mode
    · rw [if_pos hn]
      exact res_u2_mul_range obs mode ho hn
    · rw [if_neg hn, res_u2, if_neg hn]
  have hv : (if gps_norm_on mode then res_v2 obs mode o * range_v obs mode
      else res_v2 obs mode o) = res_v1 obs mode o := by
    by_cases hn : gps_norm_on mode
    · rw [if_pos hn]
      exact res_v2_mul_range obs mode ho hn
    · rw [if_neg hn, res_v2, if_neg hn]
  obtain ⟨ox, oy, ou, ov, owu, owv⟩ := o
  simp only [undo_gps_normalization, gps_coeff] at *
  simp only [Obs.mk.injEq, true_and, and_true]
  constructor
  · rw [hu]
    by_cases ht : gps_trend_on mode <;> simp only [res_u1, if_pos, if_neg, ht, if_true, if_false] <;> ring
  · rw [hv]
    by_cases ht : gps_trend_on mode <;> simp only [res_v1, if_pos, if_neg, ht, if_true, if_false] <;> ring

/-- Claim C1: for every observation list and every normalization mode
(mean-only, mean+trend, mean+range, mean+trend+range: the mode bits cover
all four combinations), applying undo_gps_normalization — with the coeff
array stored by do_gps_normalization and each point's own x,y — to the
forward-normalized records reproduces the original (u,v) values exactly
(the exact-arithmetic form of the floating-point-tolerance statement). -/
theorem claim_C1_normalization_round_trip (obs : List Obs) (mode : ℕ) :
    ((do_gps_normalization obs mode).2).map
      (fun q => undo_gps_normalization q mode (do_gps_normalization obs mode).1) = obs := by
  unfold do_gps_normalization
  rw [List.map_map]
  conv_rhs => rw [← List.map_id obs]
  exact List.map_congr_left (fun o ho => undo_gps_mem obs mode ho)

/-- Claim C9: degenerate normalization cases.  First, if the determinant
of the 2x2 normal-equations matrix of the planar trend fit is exactly
zero, all four slope coefficients of the coeff array are zero (the fitting
function is total: no error path exists).  Second, when range
normalization is requested and a component's detrended residual range
MAX(|min|,|max|) is zero, the scale factor for that component is 1 and
the stored residuals equal the unscaled residuals (a no-op instead of a
division by zero). -/
theorem claim_C9_degenerate_normalization (obs : List Obs) (mode : ℕ) :
    (det_d obs mode = 0 →
      (gps_coeff obs mode).cslp_ux = 0 ∧ (gps_coeff obs mode).cslp_uy = 0 ∧
      (gps_coeff obs mode).cslp_vx = 0 ∧ (gps_coeff obs mode).cslp_vy = 0)
    ∧ (gps_norm_on mode → range_u obs mode = 0 →
        du_scale obs mode = 1 ∧ ∀ o ∈ obs, res_u2 obs mode o = res_u1 obs mode o)
    ∧ (gps_norm_on mode → range_v obs mode = 0 →
        dv_scale obs mode = 1 ∧ ∀ o ∈ obs, res_v2 obs mode o = res_v1 obs mode o) := by
  refine ⟨fun hd => ?_, fun hn hr => ?_, fun hn hr => ?_⟩
  · simp [gps_coeff, slp_ux, slp_uy, slp_vx, slp_vy, hd]
  · refine ⟨by rw [du_scale, if_pos hr], fun o _ => ?_⟩
    rw [res_u2, if_pos hn, du_scale, if_pos hr, mul_one]
  · refine ⟨by rw [dv_scale, if_pos hr], fun o _ => ?_⟩
    rw [res_v2, if_pos hn, dv_scale, if_pos hr, mul_one]

/-- Witness for claim C9 on the concrete degenerate input
[(0,0,5,3), (0,1,5,3)] with mode GPS_TREND+GPS_NORM: the points are on a
vertical line (sxx = sxy = 0, so d = 0) and u,v are constant (zero
residual ranges). -/
theorem claim_C9_witness :
    det_d [Obs.mk 0 0 5 3 1 1, Obs.mk 0 1 5 3 1 1] 3 = 0 ∧
    gps_norm_on 3 ∧
    range_u [Obs.mk 0 0 5 3 1 1, Obs.mk 0 1 5 3 1 1] 3 = 0 ∧
    ((gps_coeff [Obs.mk 0 0 5 3 1 1, Obs.mk 0 1 5 3 1 1] 3).cslp_ux = 0 ∧
     (gps_coeff [Obs.mk 0 0 5 3 1 1, Obs.mk 0 1 5 3 1 1] 3).cslp_uy = 0 ∧
     (gps_coeff [Obs.mk 0 0 5 3 1 1, Obs.mk 0 1 5 3 1 1] 3).cslp_vx = 0 ∧
     (gps_coeff [Obs.mk 0 0 5 3 1 1, Obs.mk 0 1 5 3 1 1] 3).cslp_vy = 0) ∧
    (du_scale [Obs.mk 0 0 5 3 1 1, Obs.mk 0 1 5 3 1 1] 3 = 1 ∧
     ∀ o ∈ [Obs.mk 0 0 5 3 1 1, Obs.mk 0 1 5 3 1 1],
       res_u2 [Obs.mk 0 0 5 3 1 1, Obs.mk 0 1 5 3 1 1] 3 o =
       res_u1 [Obs.mk 0 0 5 3 1 1, Obs.mk 0 1 5 3 1 1] 3 o) := by
  have hd : det_d [Obs.mk 0 0 5 3 1 1, Obs.mk 0 1 5 3 1 1] 3 = 0 := by
    norm_num [det_d, s_xx, s_xy, s_yy, mean_x, mean_y, gps_trend_on, GPS_TREND]
  have hn : gps_norm_on 3 := by decide
  have hr : range_u [Obs.mk 0 0 5 3 1 1, Obs.mk 0 1 5 3 1 1] 3 = 0 := by
    norm_num [range_u, gps_norm_on, GPS_NORM, u_min, u_max, res_u1, mean_u,
      slp_ux, slp_uy, hd, gps_trend_on, GPS_TREND, min_def, max_def, gps_DBL_MAX]
  exact ⟨hd, hn, hr,
    (claim_C9_degenerate_normalization [Obs.mk 0 0 5 3 1 1, Obs.mk 0 1 5 3 1 1] 3).1 hd,
    (claim_C9_degenerate_normalization [Obs.mk 0 0 5 3 1 1, Obs.mk 0 1 5 3 1 1] 3).2.1 hn hr⟩

-- Duplicate gate (claim C4)

/-- Claim C4 counterexample: with one conflicting duplicate and the SVD
solver active with cutoff -1 (a negative, hence non-positive, cutoff: the
save-eigenvalues sentinel), the gate does NOT abort — the code proceeds —
refuting the claim that the run aborts unless the cutoff is positive. -/
theorem claim_C4_counterexample :
    duplicate_gate_aborts 1 true (-1) = false ∧ ¬ (0 < (-1 : ℚ)) := by
  have hz : gmt_M_is_zero (-1) = false := by
    rw [gmt_M_is_zero, decide_eq_false_iff_not]
    rw [GMT_CONV8_LIMIT]
    norm_num
  exact ⟨by simp [duplicate_gate_aborts, hz], by norm_num⟩

/-- Claim C4, amended: with conflicting duplicates present, the run
proceeds if and only if the SVD solver (-C) is active AND the cutoff is
not zero within the gmt_M_is_zero tolerance; in particular negative
cutoffs (the eigenvalue-diagnostics sentinel) also proceed, while a
positive cutoff below the tolerance still aborts.  The abort happens at
the gate, before the linear system is assembled or solved. -/
theorem claim_C4_amended (d : ℕ) (a : Bool) (v : ℚ) (hd : d ≠ 0) :
    duplicate_gate_aborts d a v = false ↔ a = true ∧ gmt_M_is_zero v = false := by
  cases a <;> simp [duplicate_gate_aborts, hd]

/-- Witness for the amended claim C4 at d = 1, -C active, cutoff = -1. -/
theorem claim_C4_witness :
    (1 : ℕ) ≠ 0 ∧
      (duplicate_gate_aborts 1 true (-1) = false ↔
        true = true ∧ gmt_M_is_zero (-1) = false) :=
  ⟨by norm_num, claim_C4_amended 1 true (-1) (by norm_num)⟩

-- Duplicate resolver (claim C5)

/-- The scan sets skip exactly when some already retained record is
coincident (zero separation within tolerance) and matches the new record
in both u and v. -/
theorem scan_dup_skip_iff (dist : Obs → Obs → ℚ) (aeq : ℚ → ℚ → Bool) (q : Obs)
    (l : List Obs) (rmin rmax : ℚ) :
    (scan_dup dist aeq q rmin rmax l).1 = true ↔
      ∃ o ∈ l, gmt_M_is_zero (dist o q) = true ∧
        (aeq q.u o.u && aeq q.v o.v) = true := by
  induction l generalizing rmin rmax with
  | nil => simp [scan_dup]
  | cons o rest ih =>
    by_cases hz : gmt_M_is_zero (dist o q) = true
    · by_cases hm : (aeq q.u o.u && aeq q.v o.v) = true
      · have hstep : (scan_dup dist aeq q rmin rmax (o :: rest)).1 = true := by
          simp [scan_dup, hz, hm]
        rw [hstep]
        exact iff_of_true rfl ⟨o, List.mem_cons_self o rest, hz, hm⟩
      · have hstep : (scan_dup dist aeq q rmin rmax (o :: rest)).1 =
            (scan_dup dist aeq q rmin rmax rest).1 := by
          simp [scan_dup, hz, hm]
        rw [hstep, ih]
        constructor
        · rintro ⟨a, ha, h1, h2⟩
          exact ⟨a, List.mem_cons_of_mem _ ha, h1, h2⟩
        · rintro ⟨a, ha, h1, h2⟩
          rcases List.mem_cons.mp ha with rfl | ha'
          · exact absurd h2 hm
          · exact ⟨a, ha', h1, h2⟩
    · have hstep : (scan_dup dist aeq q rmin rmax (o :: rest)).1 =
          (scan_dup dist aeq q (min rmin (dist o q)) (max rmax (dist o q)) rest).1 := by
        simp [scan_dup, hz]
      rw [hstep, ih]
      constructor
      · rintro ⟨a, ha, h1, h2⟩
        exact ⟨a, List.mem_cons_of_mem _ ha, h1, h2⟩
      · rintro ⟨a, ha, h1, h2⟩
        rcases List.mem_cons.mp ha with rfl | ha'
        · exact absurd h1 hz
        · exact ⟨a, ha', h1, h2⟩

/-- When no retained coincident record matches the new record in value,
the scan does not set skip and its n_duplicates increment counts exactly
the coincident (conflicting) retained records. -/
theorem scan_dup_no_skip (dist : Obs → Obs → ℚ) (aeq : ℚ → ℚ → Bool) (q : Obs)
    (l : List Obs) (rmin rmax : ℚ) :
    (∀ o ∈ l, gmt_M_is_zero (dist o q) = true → (aeq q.u o.u && aeq q.v o.v) = false) →
      (scan_dup dist aeq q rmin rmax l).1 = false ∧
      (scan_dup dist aeq q rmin rmax l).2.1 =
        l.countP (fun o => gmt_M_is_zero (dist o q)) := by
  induction l generalizing rmin rmax with
  | nil => intro _; simp [scan_dup]
  | cons o rest ih =>
    intro h
    have hrest := fun o' ho' => h o' (List.mem_cons_of_mem _ ho')
    by_cases hz : gmt_M_is_zero (dist o q) = true
    · have hm := h o (List.mem_cons_self o rest) hz
      have := ih rmin rmax hrest
      simp [scan_dup, hz, hm, this.1, this.2, List.countP_cons]
    · have := ih (min rmin (dist o q)) (max rmax (dist o q)) hrest
      simp only [Bool.not_eq_true] at hz
      simp [scan_dup, hz, this.1, this.2, List.countP_cons]

/-- Claim C5: an incoming record that coincides in location with an
already retained record and matches it in u and v (within the tolerance
functions) is discarded: the retained list is unchanged (the existing
record kept as-is, the count not incremented) and the skip counter is
incremented.  If instead every coincident retained record differs in
value, the record is appended (both records retained), the skip counter
is unchanged, and the duplicate counter is incremented by the number of
coincident conflicting records (at least one when a coincident record
exists).  dist and aeq abstract the GMT primitives gmt_distance and
doubleAlmostEqualZero. -/
theorem claim_C5_duplicate_resolution (dist : Obs → Obs → ℚ) (aeq : ℚ → ℚ → Bool)
    (st : ReadState) (q : Obs) :
    ((∃ o ∈ st.retained, gmt_M_is_zero (dist o q) = true ∧
        (aeq q.u o.u && aeq q.v o.v) = true) →
      (ingest_record dist aeq st q).retained = st.retained ∧
      (ingest_record dist aeq st q).n_skip = st.n_skip + 1)
    ∧ ((∀ o ∈ st.retained, gmt_M_is_zero (dist o q) = true →
          (aeq q.u o.u && aeq q.v o.v) = false) →
      (ingest_record dist aeq st q).retained = st.retained ++ [q] ∧
      (ingest_record dist aeq st q).n_skip = st.n_skip ∧
      (ingest_record dist aeq st q).n_dup =
        st.n_dup + st.retained.countP (fun o => gmt_M_is_zero (dist o q)) ∧
      ((∃ o ∈ st.retained, gmt_M_is_zero (dist o q) = true) →
        st.n_dup < (ingest_record dist aeq st q).n_dup)) := by
  constructor
  · intro hex
    have hskip : (scan_dup dist aeq q st.rmin st.rmax st.retained).1 = true :=
      (scan_dup_skip_iff dist aeq q st.retained st.rmin st.rmax).mpr hex
    simp [ingest_record, hskip]
  · intro hall
    have hres := scan_dup_no_skip dist aeq q st.retained st.rmin st.rmax hall
    have hdup : (ingest_record dist aeq st q).n_dup =
        st.n_dup + st.retained.countP (fun o => gmt_M_is_zero (dist o q)) := by
      simp [ingest_record, hres.1, hres.2]
    refine ⟨by simp [ingest_record, hres.1], by simp [ingest_record, hres.1], hdup, ?_⟩
    intro hex
    have hpos : 0 < st.retained.countP (fun o => gmt_M_is_zero (dist o q)) :=
      List.countP_pos_iff.mpr (by simpa using hex)
    rw [hdup]
    omega

/-- Witness for claim C5: state with one retained record (0,0,1,2) and an
incoming exact duplicate, with Cartesian-style distance and exact value
equality standing in for the tolerance primitives: the record is skipped,
the retained list unchanged. -/
theorem claim_C5_witness :
    (∃ o ∈ [Obs.mk 0 0 1 2 1 1],
        gmt_M_is_zero ((fun a b => |b.x - a.x| + |b.y - a.y|) o (Obs.mk 0 0 1 2 1 1)) = true ∧
        (((Obs.mk 0 0 1 2 1 1).u == o.u) && ((Obs.mk 0 0 1 2 1 1).v == o.v)) = true) ∧
    (ingest_record (fun a b => |b.x - a.x| + |b.y - a.y|) (fun a b => a == b)
        (ReadState.mk [Obs.mk 0 0 1 2 1 1] 0 0 gps_DBL_MAX (-gps_DBL_MAX))
        (Obs.mk 0 0 1 2 1 1)).retained = [Obs.mk 0 0 1 2 1 1] ∧
    (ingest_record (fun a b => |b.x - a.x| + |b.y - a.y|) (fun a b => a == b)
        (ReadState.mk [Obs.mk 0 0 1 2 1 1] 0 0 gps_DBL_MAX (-gps_DBL_MAX))
        (Obs.mk 0 0 1 2 1 1)).n_skip = 0 + 1 := by
  have hex : ∃ o ∈ [Obs.mk 0 0 1 2 1 1],
      gmt_M_is_zero ((fun a b => |b.x - a.x| + |b.y - a.y|) o (Obs.mk 0 0 1 2 1 1)) = true ∧
      (((Obs.mk 0 0 1 2 1 1).u == o.u) && ((Obs.mk 0 0 1 2 1 1).v == o.v)) = true := by
    refine ⟨Obs.mk 0 0 1 2 1 1, by simp, ?_, by simp⟩
    rw [gmt_M_is_zero, decide_eq_true_eq]
    rw [GMT_CONV8_LIMIT]
    norm_num
  have happ := (claim_C5_duplicate_resolution (fun a b => |b.x - a.x| + |b.y - a.y|)
    (fun a b => a == b)
    (ReadState.mk [Obs.mk 0 0 1 2 1 1] 0 0 gps_DBL_MAX (-gps_DBL_MAX))
    (Obs.mk 0 0 1 2 1 1)).1 hex
  exact ⟨hex, happ.1, happ.2⟩

-- Flat-array store bookkeeping for the assembly loop (claim C2)

theorem applyWrites_of_not_key (ws : List (ℕ × ℚ)) (A0 : ℕ → ℚ) (k : ℕ)
    (h : ∀ pr ∈ ws, pr.1 ≠ k) : applyWrites ws A0 k = A0 k := by
  induction ws generalizing A0 with
  | nil => rfl
  | cons pr t ih =>
    have hstep : applyWrites (pr :: t) A0 k =
        applyWrites t (Function.update A0 pr.1 pr.2) k := rfl
    rw [hstep, ih (Function.update A0 pr.1 pr.2)
      (fun pr' h' => h pr' (List.mem_cons_of_mem _ h'))]
    exact Function.update_noteq
      (fun hk => h pr (List.mem_cons_self pr t) hk.symm) _ _

/-- Looking up a key whose every store in the list carries the same value
v, with at least one store present, yields v. -/
theorem applyWrites_of_key (ws : List (ℕ × ℚ)) (A0 : ℕ → ℚ) (k : ℕ) (v : ℚ)
    (hmem : (k, v) ∈ ws) (huniq : ∀ pr ∈ ws, pr.1 = k → pr.2 = v) :
    applyWrites ws A0 k = v := by
  induction ws generalizing A0 with
  | nil => cases hmem
  | cons pr t ih =>
    have hstep : applyWrites (pr :: t) A0 k =
        applyWrites t (Function.update A0 pr.1 pr.2) k := rfl
    rw [hstep]
    by_cases ht : (k, v) ∈ t
    · exact ih (Function.update A0 pr.1 pr.2) ht
        (fun pr' h' => huniq pr' (List.mem_cons_of_mem _ h'))
    · rcases List.mem_cons.mp hmem with heq | h'
      · have hnone : ∀ pr' ∈ t, pr'.1 ≠ k := by
          rintro ⟨a, b⟩ h' hk
          dsimp only at hk
          subst hk
          have hv : b = v := huniq (a, b) (List.mem_cons_of_mem _ h') rfl
          subst hv
          exact ht h'
        rw [applyWrites_of_not_key t _ k hnone, ← heq]
        exact Function.update_same k v A0
      · exact absurd h' ht

/-- Uniqueness of the (row, column) decomposition of a flat index. -/
theorem flat_index_inj {N a a' b b' : ℕ} (hb : b < N) (hb' : b' < N)
    (h : a * N + b = a' * N + b') : a = a' ∧ b = b' := by
  have h0 : 0 < N := Nat.lt_of_le_of_lt (Nat.zero_le b) hb
  have e1 : (a * N + b) / N = a := by
    rw [mul_comm, Nat.mul_add_div h0, Nat.div_eq_of_lt hb, Nat.add_zero]
  have e2 : (a' * N + b') / N = a' := by
    rw [mul_comm, Nat.mul_add_div h0, Nat.div_eq_of_lt hb', Nat.add_zero]
  have ha : a = a' := by rw [← e1, ← e2, h]
  subst ha
  exact ⟨rfl, Nat.add_left_cancel h⟩

theorem cellWrites_subset_writes (c : AsmCtx) {j i : ℕ} (hj : j < c.n)
    (hi : i < c.n) {pr : ℕ × ℚ} (hpr : pr ∈ c.cellWrites j i) :
    pr ∈ c.writes := by
  unfold AsmCtx.writes
  exact List.mem_flatMap.mpr ⟨j, List.mem_range.mpr hj,
    List.mem_flatMap.mpr ⟨i, List.mem_range.mpr hi, hpr⟩⟩

theorem writes_mem_elim (c : AsmCtx) {pr : ℕ × ℚ} (hpr : pr ∈ c.writes) :
    ∃ j' i', j' < c.n ∧ i' < c.n ∧ pr ∈ c.cellWrites j' i' := by
  unfold AsmCtx.writes at hpr
  obtain ⟨j', hj', hin⟩ := List.mem_flatMap.mp hpr
  obtain ⟨i', hi', hcell⟩ := List.mem_flatMap.mp hin
  exact ⟨j', i', List.mem_range.mp hj', List.mem_range.mp hi', hcell⟩

/-- Any store of any loop iteration that hits one of the four flat
indices of the block (j, i) carries exactly the value the block (j, i)
iteration stores there: the 4*n*n written indices are pairwise distinct. -/
theorem cell_key_forces (c : AsmCtx) {j i j' i' : ℕ} (hj : j < c.n) (hi : i < c.n)
    (hj' : j' < c.n) (hi' : i' < c.n) {pr : ℕ × ℚ} (hpr : pr ∈ c.cellWrites j' i') :
    (pr.1 = j * c.n2 + i → pr.2 = c.weight_u j i * (c.G i j).1) ∧
    (pr.1 = (j + c.n) * c.n2 + (i + c.n) → pr.2 = c.weight_v j i * (c.G i j).2.1) ∧
    (pr.1 = j * c.n2 + (i + c.n) → pr.2 = c.weight_u j i * (c.G i j).2.2) ∧
    (pr.1 = (j + c.n) * c.n2 + i → pr.2 = c.weight_v j i * (c.G i j).2.2) := by
  have hn2 : c.n2 = 2 * c.n := rfl
  simp only [AsmCtx.cellWrites, List.mem_cons, List.not_mem_nil, or_false] at hpr
  rcases hpr with rfl | rfl | rfl | rfl <;>
    refine ⟨fun hkey => ?_, fun hkey => ?_, fun hkey => ?_, fun hkey => ?_⟩ <;>
    (dsimp only at hkey ⊢
     rcases flat_index_inj (by omega) (by omega) hkey with ⟨ha, hb⟩
     first
       | (exfalso; omega)
       | (obtain rfl : j' = j := by omega
          obtain rfl : i' = i := by omega
          rfl))

/-- The four entries of block (row j, column i) of the assembled matrix. -/
theorem gps_A_entry (c : AsmCtx) {j i : ℕ} (hj : j < c.n) (hi : i < c.n) :
    c.Amat (j * c.n2 + i) = c.weight_u j i * (c.G i j).1 ∧
    c.Amat (j * c.n2 + (i + c.n)) = c.weight_u j i * (c.G i j).2.2 ∧
    c.Amat ((j + c.n) * c.n2 + i) = c.weight_v j i * (c.G i j).2.2 ∧
    c.Amat ((j + c.n) * c.n2 + (i + c.n)) = c.weight_v j i * (c.G i j).2.1 := by
  refine ⟨?_, ?_, ?_, ?_⟩ <;> simp only [AsmCtx.Amat]
  · refine applyWrites_of_key _ _ _ _
      (cellWrites_subset_writes c hj hi (by simp [AsmCtx.cellWrites])) ?_
    intro pr hpr hkey
    obtain ⟨j', i', hj', hi', hcell⟩ := writes_mem_elim c hpr
    exact (cell_key_forces c hj hi hj' hi' hcell).1 hkey
  · refine applyWrites_of_key _ _ _ _
      (cellWrites_subset_writes c hj hi (by simp [AsmCtx.cellWrites])) ?_
    intro pr hpr hkey
    obtain ⟨j', i', hj', hi', hcell⟩ := writes_mem_elim c hpr
    exact (cell_key_forces c hj hi hj' hi' hcell).2.2.1 hkey
  · refine applyWrites_of_key _ _ _ _
      (cellWrites_subset_writes c hj hi (by simp [AsmCtx.cellWrites])) ?_
    intro pr hpr hkey
    obtain ⟨j', i', hj', hi', hcell⟩ := writes_mem_elim c hpr
    exact (cell_key_forces c hj hi hj' hi' hcell).2.2.2 hkey
  · refine applyWrites_of_key _ _ _ _
      (cellWrites_subset_writes c hj hi (by simp [AsmCtx.cellWrites])) ?_
    intro pr hpr hkey
    obtain ⟨j', i', hj', hi', hcell⟩ := writes_mem_elim c hpr
    exact (cell_key_forces c hj hi hj' hi' hcell).2.1 hkey

/-- The two right-hand-side entries belonging to observation j. -/
theorem gps_rhs_entry (c : AsmCtx) {j : ℕ} (hj : j < c.n) :
    c.rhsF j = c.weight_ju j * c.uArr j ∧
    c.rhsF (c.n + j) = c.weight_jv j * c.vArr j := by
  unfold AsmCtx.rhsF AsmCtx.rhs
  have hlen1 : ((List.range c.n).map (fun j => c.weight_ju j * c.uArr j)).length = c.n := by
    simp
  constructor
  · rw [List.getD_append _ _ _ _ (by simpa [hlen1] using hj)]
    have hl : j < ((List.range c.n).map (fun j => c.weight_ju j * c.uArr j)).length := by
      simpa [hlen1] using hj
    rw [List.getD_eq_getElem _ _ hl]
    simp
  · rw [List.getD_append_right _ _ _ _ (by simp [hlen1])]
    have hl : c.n + j - ((List.range c.n).map (fun j => c.weight_ju j * c.uArr j)).length <
        ((List.range c.n).map (fun j => c.weight_jv j * c.vArr j)).length := by
      simp [hlen1]
      omega
    rw [List.getD_eq_getElem _ _ hl]
    simp [hlen1]

/-- Claim C2: for every pair (source i, evaluation j) among the n
retained observations, the assembled 2n-by-2n flat matrix holds, at
row-block j and column-block i, the 2x2 block (G_xx, G_xy; G_xy, G_yy)
of the Green's function evaluated on the offset from i to j, with the
u-row entries scaled by the product of the two observations' u-weights
and the v-row entries by the product of their v-weights (all factors 1
when -W is off); and the right-hand side is the weighted u residuals
followed by the weighted v residuals. -/
theorem claim_C2_linear_system_assembly (c : AsmCtx) {j i : ℕ}
    (hj : j < c.n) (hi : i < c.n) :
    (c.Amat (j * c.n2 + i) =
        (if c.Wactive then (c.X j).wu * (c.X i).wu else 1) *
          (evaluate_greensfunctions c.rlog
            (get_gps_dxdy c.geo c.deltaLonF c.cosdF c.distKm (c.X i) (c.X j)).1
            (get_gps_dxdy c.geo c.deltaLonF c.cosdF c.distKm (c.X i) (c.X j)).2 c.par).1 ∧
     c.Amat (j * c.n2 + (i + c.n)) =
        (if c.Wactive then (c.X j).wu * (c.X i).wu else 1) *
          (evaluate_greensfunctions c.rlog
            (get_gps_dxdy c.geo c.deltaLonF c.cosdF c.distKm (c.X i) (c.X j)).1
            (get_gps_dxdy c.geo c.deltaLonF c.cosdF c.distKm (c.X i) (c.X j)).2 c.par).2.2 ∧
     c.Amat ((j + c.n) * c.n2 + i) =
        (if c.Wactive then (c.X j).wv * (c.X i).wv else 1) *
          (evaluate_greensfunctions c.rlog
            (get_gps_dxdy c.geo c.deltaLonF c.cosdF c.distKm (c.X i) (c.X j)).1
            (get_gps_dxdy c.geo c.deltaLonF c.cosdF c.distKm (c.X i) (c.X j)).2 c.par).2.2 ∧
     c.Amat ((j + c.n) * c.n2 + (i + c.n)) =
        (if c.Wactive then (c.X j).wv * (c.X i).wv else 1) *
          (evaluate_greensfunctions c.rlog
            (get_gps_dxdy c.geo c.deltaLonF c.cosdF c.distKm (c.X i) (c.X j)).1
            (get_gps_dxdy c.geo c.deltaLonF c.cosdF c.distKm (c.X i) (c.X j)).2 c.par).2.1)
    ∧ (c.rhsF j = (if c.Wactive then (c.X j).wu else 1) * c.uArr j ∧
       c.rhsF (c.n + j) = (if c.Wactive then (c.X j).wv else 1) * c.vArr j) := by
  have h := gps_A_entry c hj hi
  have h2 := gps_rhs_entry c hj
  simp only [AsmCtx.weight_u, AsmCtx.weight_v, AsmCtx.weight_ju, AsmCtx.weight_jv,
    AsmCtx.G, AsmCtx.offs] at h h2
  exact ⟨⟨h.1, h.2.1, h.2.2.1, h.2.2.2⟩, h2⟩

/-- Witness for claim C2 on the one-observation context ctxW: the four
matrix entries and the two right-hand-side entries take their predicted
concrete values (G_xx = G_yy = 27/2, G_xy = 0, u-weights 3*3, v-weights
4*4, rhs 3*5 and 4*7). -/
theorem claim_C2_witness :
    0 < ctxW.n ∧
    ctxW.Amat (0 * ctxW.n2 + 0) = 243 / 2 ∧
    ctxW.Amat (0 * ctxW.n2 + (0 + ctxW.n)) = 0 ∧
    ctxW.Amat ((0 + ctxW.n) * ctxW.n2 + 0) = 0 ∧
    ctxW.Amat ((0 + ctxW.n) * ctxW.n2 + (0 + ctxW.n)) = 216 ∧
    ctxW.rhsF 0 = 15 ∧
    ctxW.rhsF (ctxW.n + 0) = 28 := by
  have hn : 0 < ctxW.n := by norm_num [ctxW]
  have h := claim_C2_linear_system_assembly ctxW hn hn
  refine ⟨hn, ?_, ?_, ?_, ?_, ?_, ?_⟩
  · rw [h.1.1]
    norm_num [ctxW, get_gps_dxdy, evaluate_greensfunctions, greens_dr2]
  · rw [h.1.2.1]
    norm_num [ctxW, get_gps_dxdy, evaluate_greensfunctions, greens_dr2]
  · rw [h.1.2.2.1]
    norm_num [ctxW, get_gps_dxdy, evaluate_greensfunctions, greens_dr2]
  · rw [h.1.2.2.2]
    norm_num [ctxW, get_gps_dxdy, evaluate_greensfunctions, greens_dr2]
  · rw [h.2.1]
    norm_num [ctxW]
  · rw [h.2.2]
    norm_num [ctxW]

-- Uniform weights (claim C6)

/-- Block entries of the matrix assembled with -W active and uniform
weight w on both columns of every observation: every entry carries the
factor w*w in front of the Green's value of the unweighted geometry. -/
theorem uniform_A_entry (c : AsmCtx) (w : ℚ) {j i : ℕ} (hj : j < c.n) (hi : i < c.n) :
    (withUniformWeight c w).Amat (j * (2 * c.n) + i) = w * w * (c.G i j).1 ∧
    (withUniformWeight c w).Amat (j * (2 * c.n) + (i + c.n)) = w * w * (c.G i j).2.2 ∧
    (withUniformWeight c w).Amat ((j + c.n) * (2 * c.n) + i) = w * w * (c.G i j).2.2 ∧
    (withUniformWeight c w).Amat ((j + c.n) * (2 * c.n) + (i + c.n)) = w * w * (c.G i j).2.1 := by
  have h := gps_A_entry (withUniformWeight c w) hj hi
  simpa [withUniformWeight, AsmCtx.n2, AsmCtx.weight_u, AsmCtx.weight_v,
    AsmCtx.G, AsmCtx.offs, get_gps_dxdy] using h

/-- Every entry of the uniformly w-weighted matrix is w*w times the
corresponding entry of the uniformly 1-weighted matrix. -/
theorem uniform_A_scale (c : AsmCtx) (w : ℚ) {r cc : ℕ}
    (hr : r < 2 * c.n) (hcc : cc < 2 * c.n) :
    (withUniformWeight c w).Amat (r * (2 * c.n) + cc) =
      w * w * (withUniformWeight c 1).Amat (r * (2 * c.n) + cc) := by
  rcases Nat.lt_or_ge r c.n with hr1 | hr1 <;> rcases Nat.lt_or_ge cc c.n with hc1 | hc1
  · rw [(uniform_A_entry c w hr1 hc1).1, (uniform_A_entry c 1 hr1 hc1).1]
    ring
  · have hc2 : cc - c.n < c.n := by omega
    have hidx : cc = cc - c.n + c.n := by omega
    rw [hidx, (uniform_A_entry c w hr1 hc2).2.1, (uniform_A_entry c 1 hr1 hc2).2.1]
    ring
  · have hr2 : r - c.n < c.n := by omega
    have hidx : r = r - c.n + c.n := by omega
    rw [hidx, (uniform_A_entry c w hr2 hc1).2.2.1, (uniform_A_entry c 1 hr2 hc1).2.2.1]
    ring
  · have hr2 : r - c.n < c.n := by omega
    have hc2 : cc - c.n < c.n := by omega
    have hidxr : r = r - c.n + c.n := by omega
    have hidxc : cc = cc - c.n + c.n := by omega
    rw [hidxr, hidxc, (uniform_A_entry c w hr2 hc2).2.2.2,
      (uniform_A_entry c 1 hr2 hc2).2.2.2]
    ring

/-- Right-hand-side entries of the uniformly weighted system. -/
theorem uniform_rhs_entry (c : AsmCtx) (w : ℚ) {j : ℕ} (hj : j < c.n) :
    (withUniformWeight c w).rhsF j = w * c.uArr j ∧
    (withUniformWeight c w).rhsF (c.n + j) = w * c.vArr j := by
  have h := gps_rhs_entry (withUniformWeight c w) hj
  simpa [withUniformWeight, AsmCtx.weight_ju, AsmCtx.weight_jv] using h

/-- Every right-hand-side entry of the uniformly w-weighted system is w
times the corresponding entry at uniform weight 1. -/
theorem uniform_rhs_scale (c : AsmCtx) (w : ℚ) {k : ℕ} (hk : k < 2 * c.n) :
    (withUniformWeight c w).rhsF k = w * (withUniformWeight c 1).rhsF k := by
  rcases Nat.lt_or_ge k c.n with h1 | h1
  · rw [(uniform_rhs_entry c w h1).1, (uniform_rhs_entry c 1 h1).1]
    ring
  · have h2 : k - c.n < c.n := by omega
    have hidx : k = c.n + (k - c.n) := by omega
    rw [hidx, (uniform_rhs_entry c w h2).2, (uniform_rhs_entry c 1 h2).2]
    ring

/-- Claim C6 (behaviour actually implemented): because the assembly
multiplies each matrix entry by the weights of BOTH observations
(w_j * w_i) and each right-hand-side entry by w_j only, supplying the
uniform weight w on all observations rescales the whole system so that x
solves the w-weighted system exactly when w*x solves the weight-1 system.
Hence the fitted coefficient vector at uniform weight 2 is HALF the
weight-1 coefficient vector whenever the latter is nonzero — not equal to
it, contradicting the claim (and the usage text saying -W has no effect
without -C). -/
theorem claim_C6_uniform_weight_scaling (c : AsmCtx) (w : ℚ) (hw : w ≠ 0) (x : ℕ → ℚ) :
    solves (2 * c.n) ((withUniformWeight c w).Amat) ((withUniformWeight c w).rhsF) x ↔
    solves (2 * c.n) ((withUniformWeight c 1).Amat) ((withUniformWeight c 1).rhsF)
      (fun k => w * x k) := by
  unfold solves
  refine forall_congr' (fun r => imp_congr_right (fun hr => ?_))
  have hrow : rowMul (2 * c.n) ((withUniformWeight c w).Amat) x r =
      w * rowMul (2 * c.n) ((withUniformWeight c 1).Amat) (fun k => w * x k) r := by
    unfold rowMul
    rw [Finset.mul_sum]
    refine Finset.sum_congr rfl (fun i hi => ?_)
    rw [uniform_A_scale c w hr (Finset.mem_range.mp hi)]
    ring
  rw [hrow, uniform_rhs_scale c w hr]
  constructor
  · intro h
    exact mul_left_cancel₀ hw h
  · intro h
    rw [h]

/-- Witness for claim C6 at the concrete context ctxW, uniform weight 2
and candidate vector x = 1. -/
theorem claim_C6_witness :
    (2 : ℚ) ≠ 0 ∧
      (solves (2 * ctxW.n) ((withUniformWeight ctxW 2).Amat)
          ((withUniformWeight ctxW 2).rhsF) (fun _ => 1) ↔
        solves (2 * ctxW.n) ((withUniformWeight ctxW 1).Amat)
          ((withUniformWeight ctxW 1).rhsF) (fun k => 2 * (fun _ => (1 : ℚ)) k)) :=
  ⟨by norm_num, claim_C6_uniform_weight_scaling ctxW 2 (by norm_num) (fun _ => 1)⟩

-- Eigenvalue diagnostic (claim C10)

/-- Claim C10: in the default ratio mode (not -Cv), the reported value of
row i is the (2n-1-i)-th entry of the ascending-sorted singular values
divided by the entry at index n-1 (the n-th smallest of the 2n values);
and, for nonnegative singular values, every reported value equals the
ratio to the LARGEST singular value (the entry at index 2n-1) exactly
when the entry at index n-1 equals that largest entry. -/
theorem claim_C10_eig_ratio_denominator (s : List ℚ) (n : ℕ) (hn : 0 < n)
    (hlen : s.length = 2 * n) (hpos : ∀ x ∈ s, 0 ≤ x) :
    (∀ i, (gps_eig_report 0 s n i).2 =
        (gps_sorted s).getD (2 * n - 1 - i) 0 / (gps_sorted s).getD (n - 1) 0)
    ∧ ((∀ i < 2 * n, (gps_eig_report 0 s n i).2 =
          (gps_sorted s).getD (2 * n - 1 - i) 0 / (gps_sorted s).getD (2 * n - 1) 0)
        ↔ (gps_sorted s).getD (n - 1) 0 = (gps_sorted s).getD (2 * n - 1) 0) := by
  have hform : ∀ i, (gps_eig_report 0 s n i).2 =
      (gps_sorted s).getD (2 * n - 1 - i) 0 / (gps_sorted s).getD (n - 1) 0 := by
    intro i
    simp [gps_eig_report, gps_eig_max]
  have hlen' : (gps_sorted s).length = 2 * n := by
    rw [gps_sorted, List.length_insertionSort, hlen]
  have hsort : (gps_sorted s).Sorted (· ≤ ·) := List.sorted_insertionSort _ s
  have hidx1 : n - 1 < (gps_sorted s).length := by omega
  have hidx2 : 2 * n - 1 < (gps_sorted s).length := by omega
  have hgd1 : (gps_sorted s).getD (n - 1) 0 = (gps_sorted s).get ⟨n - 1, hidx1⟩ := by
    rw [List.getD_eq_getElem _ _ hidx1, List.get_eq_getElem]
  have hgd2 : (gps_sorted s).getD (2 * n - 1) 0 = (gps_sorted s).get ⟨2 * n - 1, hidx2⟩ := by
    rw [List.getD_eq_getElem _ _ hidx2, List.get_eq_getElem]
  have hdM : (gps_sorted s).getD (n - 1) 0 ≤ (gps_sorted s).getD (2 * n - 1) 0 := by
    rw [hgd1, hgd2]
    exact hsort.rel_get_of_le (Fin.mk_le_mk.mpr (by omega))
  have hsub : ∀ x ∈ gps_sorted s, x ∈ s := fun x hx =>
    (List.perm_insertionSort (· ≤ ·) s).subset (by simpa [gps_sorted] using hx)
  have h0d : 0 ≤ (gps_sorted s).getD (n - 1) 0 := by
    rw [hgd1]
    exact hpos _ (hsub _ (List.get_mem _ _ hidx1))
  refine ⟨hform, ?_, ?_⟩
  · intro hall
    have h0 := hall 0 (by omega)
    have heq : (gps_sorted s).getD (2 * n - 1) 0 / (gps_sorted s).getD (n - 1) 0 =
        (gps_sorted s).getD (2 * n - 1) 0 / (gps_sorted s).getD (2 * n - 1) 0 := by
      have hc := hform 0
      simp only [Nat.sub_zero] at hc h0
      rw [← hc, h0]
    rcases eq_or_ne ((gps_sorted s).getD (2 * n - 1) 0) 0 with hM | hM
    · rw [hM]
      exact le_antisymm (hdM.trans (le_of_eq hM)) h0d
    · rw [div_self hM] at heq
      rcases eq_or_ne ((gps_sorted s).getD (n - 1) 0) 0 with hd | hd
      · rw [hd, div_zero] at heq
        exact absurd heq.symm one_ne_zero
      · exact ((div_eq_one_iff_eq hd).mp heq).symm
  · intro hMd i _
    rw [hform i, hMd]

/-- Witness for claim C10 with the singular values [1,2,3,4] and n = 2:
here the denominator entry at index n-1 = 1 is the value 2, not the
maximum 4. -/
theorem claim_C10_witness :
    (0 < 2 ∧ ([(1 : ℚ), 2, 3, 4]).length = 2 * 2 ∧ ∀ x ∈ [(1 : ℚ), 2, 3, 4], 0 ≤ x) ∧
    ((∀ i, (gps_eig_report 0 [(1 : ℚ), 2, 3, 4] 2 i).2 =
        (gps_sorted [(1 : ℚ), 2, 3, 4]).getD (2 * 2 - 1 - i) 0 /
          (gps_sorted [(1 : ℚ), 2, 3, 4]).getD (2 - 1) 0)
    ∧ ((∀ i < 2 * 2, (gps_eig_report 0 [(1 : ℚ), 2, 3, 4] 2 i).2 =
          (gps_sorted [(1 : ℚ), 2, 3, 4]).getD (2 * 2 - 1 - i) 0 /
            (gps_sorted [(1 : ℚ), 2, 3, 4]).getD (2 * 2 - 1) 0)
        ↔ (gps_sorted [(1 : ℚ), 2, 3, 4]).getD (2 - 1) 0 =
            (gps_sorted [(1 : ℚ), 2, 3, 4]).getD (2 * 2 - 1) 0)) :=
  ⟨⟨by norm_num, by norm_num, by norm_num⟩,
   claim_C10_eig_ratio_denominator [(1 : ℚ), 2, 3, 4] 2 (by norm_num) (by norm_num)
     (by norm_num)⟩

end Gpsgridder
